import Mathlib

/-!
Verification of the request-authentication and response-codec core of the
gd.js client library, shallowly embedded in Lean.

JavaScript strings are modelled as lists of UTF-16 code units
(`List Nat`, each element `< 2 ^ 16`).  JavaScript objects are modelled as
insertion-ordered association lists whose values are `JsVal`: a value can
be `undefined`, a string, a (finite) number, or `NaN`.  Numbers are
modelled as exact rationals; every numeric literal appearing in the claims
is a small integer, for which IEEE doubles are exact, so no rounding model
is needed.  Fallible JavaScript operations (`btoa`, `atob`,
`String.fromCodePoint`, property access on `undefined`) return `Except`.
-/

namespace GD

/-- Errors thrown by the JavaScript primitives used in the embedded code:
`TypeError` (property access on `undefined`), `InvalidCharacterError`
(`btoa` on a char code above 255, `atob` on malformed Base64) and
`RangeError` (`String.fromCodePoint` on an invalid code point). -/
inductive JsErr where
  | typeError
  | invalidChar
  | rangeError
deriving DecidableEq, Repr

/-- A JavaScript value as stored in an object property: `undefined`, a
string (list of UTF-16 code units), a finite number, or `NaN`. -/
inductive JsVal where
  | undefinedVal
  | vstr (s : List Nat)
  | vnum (q : ℚ)
  | vnan
deriving DecidableEq, Repr

/-- A JavaScript object: an insertion-ordered association list from
property keys (strings) to values.  Assignment updates an existing key in
place and appends a fresh key, matching JS property-order semantics for
non-integer-like keys (the only keys the verified claims touch). -/
abbrev JsObj := List (List Nat × JsVal)

/-- Property read `o[k]`, as key presence: `none` means the key is absent.
(JS property access returns `undefined` for an absent key; use
`objGetVal` for that view.) -/
def objGet : JsObj → List Nat → Option JsVal
  | [], _ => none
  | (k', v) :: rest, k => if k' = k then some v else objGet rest k

/-- Property read `o[k]` with the JS view: absent keys read as
`undefined`. -/
def objGetVal (o : JsObj) (k : List Nat) : JsVal :=
  (objGet o k).getD .undefinedVal

/-- Whether `k` is an own property of the object (`k in o`). -/
def objHasKey (o : JsObj) (k : List Nat) : Bool :=
  (objGet o k).isSome

/-- Property write `o[k] = v`: update in place if present, else append. -/
def objSet : JsObj → List Nat → JsVal → JsObj
  | [], k, v => [(k, v)]
  | (k', v') :: rest, k, v =>
      if k' = k then (k', v) :: rest else (k', v') :: objSet rest k v

theorem objGet_objSet (o : JsObj) (k k' : List Nat) (v : JsVal) :
    objGet (objSet o k v) k' = if k = k' then some v else objGet o k' := by
  induction o with
  | nil =>
      by_cases h : k = k' <;> simp [objSet, objGet, h]
  | cons p rest ih =>
      obtain ⟨k₀, v₀⟩ := p
      simp only [objSet]
      by_cases h0 : k₀ = k
      · subst h0
        rw [if_pos rfl]
        by_cases h1 : k₀ = k' <;> simp [objGet, h1]
      · rw [if_neg h0]
        by_cases h1 : k₀ = k'
        · have h2 : ¬k = k' := fun hh => h0 (h1.trans hh.symm)
          simp [objGet, h1, h2]
        · simp [objGet, h1, ih]

/-- JavaScript `String.prototype.split` with a one-character separator
(every separator used by the library's parser call sites is a single
character).  Mirrors JS semantics: splitting the empty string yields a
list containing one empty token. -/
def jsSplit (sep : Nat) : List Nat → List (List Nat)
  | [] => [[]]
  | c :: rest =>
      if c = sep then [] :: jsSplit sep rest
      else
        match jsSplit sep rest with
        | [] => [[c]]
        | t :: ts => (c :: t) :: ts

/-- Induction principle matching the two-tokens-at-a-time walk of the
parsers. -/
theorem twoStepInduction {α : Type} {P : List α → Prop} (h0 : P [])
    (h1 : ∀ a, P [a]) (h2 : ∀ a b l, P l → P (a :: b :: l)) :
    ∀ l, P l
  | [] => h0
  | [a] => h1 a
  | a :: b :: l => h2 a b l (twoStepInduction h0 h1 h2 l)

/-- One pass of the parser loop `for (i = 0; i < split.length; i += 2)
obj[split[i]] = f(split[i + 1])`, parameterised by the value
transformation `f` applied to the (possibly out-of-range, hence
`Option`al) value token. -/
def assignPairsWith (f : Option (List Nat) → JsVal) :
    JsObj → List (List Nat) → JsObj
  | obj, [] => obj
  | obj, [k] => objSet obj k (f none)
  | obj, k :: v :: rest => assignPairsWith f (objSet obj k (f (some v))) rest

/-- The key/value pairs the loop writes, in write order: tokens are
chunked two at a time, an odd trailing token is paired with the
out-of-range read (`undefined` index). -/
def chunkWith (f : Option (List Nat) → JsVal) :
    List (List Nat) → List (List Nat × JsVal)
  | [] => []
  | [k] => [(k, f none)]
  | k :: v :: rest => (k, f (some v)) :: chunkWith f rest

/-- Last-write-wins lookup over a pair list (JS assignment overwrites). -/
def lastAssoc (k : List Nat) : List (List Nat × JsVal) → Option JsVal
  | [] => none
  | (k', v) :: ps => (lastAssoc k ps).or (if k' = k then some v else none)

theorem objGet_assignPairsWith (f : Option (List Nat) → JsVal)
    (toks : List (List Nat)) :
    ∀ (obj : JsObj) (k : List Nat),
      objGet (assignPairsWith f obj toks) k =
        (lastAssoc k (chunkWith f toks)).or (objGet obj k) := by
  induction toks using twoStepInduction with
  | h0 => intro obj k; simp [assignPairsWith, chunkWith, lastAssoc]
  | h1 a =>
      intro obj k
      simp only [assignPairsWith, chunkWith, lastAssoc, objGet_objSet]
      by_cases h : a = k <;> simp [h, Option.or]
  | h2 a b l ih =>
      intro obj k
      simp only [assignPairsWith, chunkWith, lastAssoc, ih, objGet_objSet]
      by_cases h : a = k
      · simp only [if_pos h]
        cases lastAssoc k (chunkWith f l) <;> simp [Option.or]
      · simp only [if_neg h]
        cases lastAssoc k (chunkWith f l) <;> simp [Option.or]

theorem lastAssoc_isSome (k : List Nat) (ps : List (List Nat × JsVal)) :
    (lastAssoc k ps).isSome = ps.any (fun p => decide (p.1 = k)) := by
  induction ps with
  | nil => rfl
  | cons p rest ih =>
      obtain ⟨k', v⟩ := p
      simp only [lastAssoc, List.any_cons, ← ih]
      by_cases h : k' = k <;>
        cases hrest : lastAssoc k rest <;>
          simp [h, hrest, Option.or]

/-- The value transformation of `parse`: `obj[split[i]] = split[i + 1]`
stores the raw token, or `undefined` when the index is out of range. -/
def strTokVal : Option (List Nat) → JsVal
  | none => .undefinedVal
  | some v => .vstr v

/-- `parse(data, splitter)` from `src/util/parse.ts`: split on the
separator and assign alternating tokens as key/value. -/
def parse (sep : Nat) (data : List Nat) : JsObj :=
  assignPairsWith strTokVal [] (jsSplit sep data)

/-- Whether a code unit is an ASCII decimal digit. -/
def isDigit (c : Nat) : Bool := 48 ≤ c && c ≤ 57

/-- Whether a code unit is JS whitespace (the forms relevant here). -/
def isSpace (c : Nat) : Bool :=
  c = 32 || c = 9 || c = 10 || c = 13 || c = 11 || c = 12

/-- Numeric value of a list of ASCII digits. -/
def digitsVal : List Nat → Nat
  | [] => 0
  | c :: rest => (c - 48) * 10 ^ rest.length + digitsVal rest

/-- Unsigned part of JS `ToNumber` on a string: decimal digits with an
optional fractional part (`"5"`, `"5."`, `".5"`, `"5.25"`); `none` is
`NaN`.  Hexadecimal and exponent forms, which never occur in the
library's wire data, are not modelled. -/
def toNumberBody (s : List Nat) : Option ℚ :=
  let ip := s.takeWhile (fun c => c ≠ 46)
  let rest := s.dropWhile (fun c => c ≠ 46)
  if ip.all isDigit then
    match rest with
    | [] => if ip = [] then none else some (digitsVal ip : ℚ)
    | _ :: fp =>
        if fp.all isDigit && (ip ≠ [] || fp ≠ []) then
          some ((digitsVal ip : ℚ) + (digitsVal fp : ℚ) / (10 : ℚ) ^ fp.length)
        else none
  else none

/-- JS `ToNumber` on a string (unary `+`): trims whitespace, maps the
empty string to `0`, handles an optional sign; `none` models `NaN`. -/
def toNumber (s : List Nat) : Option ℚ :=
  let t := ((s.dropWhile isSpace).reverse.dropWhile isSpace).reverse
  match t with
  | [] => some 0
  | 45 :: r => (toNumberBody r).map (fun q => -q)
  | 43 :: r => toNumberBody r
  | r => toNumberBody r

/-- The value transformation of `parseObject`:
`obj[split[i]] = +split[i + 1] || split[i + 1]` — coerce the value token
to a number, falling back to the raw token when the coercion is falsy
(`NaN`, `0` or `-0`); an out-of-range read coerces `undefined` to `NaN`
and falls back to `undefined`. -/
def numTokVal : Option (List Nat) → JsVal
  | none => .undefinedVal
  | some v =>
      match toNumber v with
      | none => .vstr v
      | some q => if q = 0 then .vstr v else .vnum q

/-- `parseObject(data)` (the numeric-keyed parser, exported as the level
object parser): split on `,` and assign alternating tokens, coercing
values to numbers with a raw-string fallback on falsy results. -/
def parseObject (data : List Nat) : JsObj :=
  assignPairsWith numTokVal [] (jsSplit 44 data)

theorem lastAssoc_chunk_odd (f : Option (List Nat) → JsVal) :
    ∀ toks : List (List Nat), toks.length % 2 = 1 →
      ∀ t, toks.getLast? = some t →
        lastAssoc t (chunkWith f toks) = some (f none) := by
  refine twoStepInduction ?_ ?_ ?_
  · intro h; simp at h
  · intro a _ t ht
    simp only [List.getLast?_singleton, Option.some.injEq] at ht
    subst ht
    simp [chunkWith, lastAssoc, Option.or]
  · intro a b l ih h t ht
    have h' : l.length % 2 = 1 := by
      simp only [List.length_cons] at h; omega
    have hne : l ≠ [] := by
      intro he; rw [he] at h'; simp at h'
    obtain ⟨c, l', rfl⟩ := List.exists_cons_of_ne_nil hne
    rw [List.getLast?_cons_cons, List.getLast?_cons_cons] at ht
    rw [chunkWith, lastAssoc, ih h' t ht]
    simp [Option.or]

theorem objGet_parse (sep : Nat) (data : List Nat) (k : List Nat) :
    objGet (parse sep data) k =
      lastAssoc k (chunkWith strTokVal (jsSplit sep data)) := by
  rw [parse, objGet_assignPairsWith]
  simp [objGet, Option.or_none]

theorem objGet_parseObject (data k : List Nat) :
    objGet (parseObject data) k =
      lastAssoc k (chunkWith numTokVal (jsSplit 44 data)) := by
  rw [parseObject, objGet_assignPairsWith]
  simp [objGet, Option.or_none]

/-- Counterexample to claim C1 as stated: `parse("", ":")` is not the
empty map — it holds the single key `""` (bound to `undefined`) — and
`parse("a:1:b")` does have an entry for the final unpaired token `"b"`. -/
theorem parse_truncation_counterexample :
    parse 58 [] = [([], JsVal.undefinedVal)] ∧
    objHasKey (parse 58 [97, 58, 49, 58, 98]) [98] = true := by
  decide

/-- Claim C1 (amended): `parse` pairs alternating tokens with
last-write-wins assignment; when the token count is odd the final
unpaired token is not dropped but bound to `undefined` (so property reads
on it are indistinguishable from absence), and `parse("", ":")` is the
single binding of `""` to `undefined`.  Concretely, property reads on
`parse("a:1:b")` (codes `97 58 49 58 98`) agree with `{a: "1"}`. -/
theorem parse_truncation_amended :
    (∀ sep data k, objGet (parse sep data) k =
        lastAssoc k (chunkWith strTokVal (jsSplit sep data))) ∧
    (∀ sep data t, (jsSplit sep data).length % 2 = 1 →
        (jsSplit sep data).getLast? = some t →
        objGet (parse sep data) t = some JsVal.undefinedVal) ∧
    objGetVal (parse 58 [97, 58, 49, 58, 98]) [97] = JsVal.vstr [49] ∧
    objGetVal (parse 58 [97, 58, 49, 58, 98]) [98] = JsVal.undefinedVal ∧
    parse 58 [] = [([], JsVal.undefinedVal)] := by
  refine ⟨objGet_parse, fun sep data t h ht => ?_, by decide, by decide,
    by decide⟩
  rw [objGet_parse, lastAssoc_chunk_odd strTokVal _ h t ht]
  rfl

/-- Witness for the amended claim C1 at the concrete input `"a:1:b"`:
the odd-count branch applies and yields an `undefined` binding for the
trailing token. -/
theorem parse_truncation_amended_witness :
    objGet (parse 58 [97, 58, 49, 58, 98]) [98] = some JsVal.undefinedVal :=
  parse_truncation_amended.2.1 58 [97, 58, 49, 58, 98] [98]
    (by decide) (by decide)

/-- Counterexample to claim C6 as stated: `parseNumeric("1,0")` retains
the value `"0"` as a string even though its numeric coercion succeeds
(`+"0"` is `0`, not `NaN`) — the code falls back to the raw token on any
falsy coercion, not only on `NaN`. -/
theorem parseObject_coercion_counterexample :
    objGet (parseObject [49, 44, 48]) [49] = some (JsVal.vstr [48]) ∧
    JsVal.vstr [48] ≠ JsVal.vnum 0 := by
  decide

/-- Claim C6 (amended): the numeric-keyed parser splits on `,`, pairs
alternating tokens with last-write-wins assignment, coerces each value
token to a number and keeps the coerced number when it is truthy; it
retains the original string whenever the coercion is falsy — `NaN` or
zero — not only on `NaN`.  Concretely `parseNumeric("1,5,2,x")` (codes
`49 44 53 44 50 44 120`) is `{1: 5, 2: "x"}`. -/
theorem parseObject_coercion_amended :
    (∀ data k, objGet (parseObject data) k =
        lastAssoc k (chunkWith numTokVal (jsSplit 44 data))) ∧
    (∀ v q, toNumber v = some q → q ≠ 0 →
        numTokVal (some v) = JsVal.vnum q) ∧
    (∀ v, toNumber v = none → numTokVal (some v) = JsVal.vstr v) ∧
    (∀ v, toNumber v = some 0 → numTokVal (some v) = JsVal.vstr v) ∧
    parseObject [49, 44, 53, 44, 50, 44, 120] =
      [([49], JsVal.vnum 5), ([50], JsVal.vstr [120])] := by
  refine ⟨objGet_parseObject, fun v q hv hq => ?_, fun v hv => ?_,
    fun v hv => ?_, by decide⟩
  · simp [numTokVal, hv, hq]
  · simp [numTokVal, hv]
  · simp [numTokVal, hv]

/-- Witness for the amended claim C6: the truthy-coercion branch applies
at the concrete value token `"5"`. -/
theorem parseObject_coercion_amended_witness :
    numTokVal (some [53]) = JsVal.vnum 5 :=
  parseObject_coercion_amended.2.1 [53] 5 (by decide) (by decide)

/-- The standard Base64 alphabet as char codes: `A`–`Z`, `a`–`z`,
`0`–`9`, `+`, `/`. -/
def b64Alphabet : List Nat :=
  (List.range 26).map (fun i => 65 + i) ++
    (List.range 26).map (fun i => 97 + i) ++
    (List.range 10).map (fun i => 48 + i) ++ [43, 47]

/-- Base64 digit to char code. -/
def e64 (n : Nat) : Nat := b64Alphabet.getD n 0

/-- Char code to Base64 digit; `none` on a non-alphabet char. -/
def dec64 (c : Nat) : Option Nat := b64Alphabet.findIdx? (fun x => x == c)

/-- The byte-to-chars core of `btoa`: standard Base64 with `=` (61)
padding, three input bytes per four output chars. -/
def btoaBytes : List Nat → List Nat
  | [] => []
  | [b0] => [e64 (b0 / 4), e64 (b0 % 4 * 16), 61, 61]
  | [b0, b1] =>
      [e64 (b0 / 4), e64 (b0 % 4 * 16 + b1 / 16), e64 (b1 % 16 * 4), 61]
  | b0 :: b1 :: b2 :: rest =>
      e64 (b0 / 4) :: e64 (b0 % 4 * 16 + b1 / 16) ::
        e64 (b1 % 16 * 4 + b2 / 64) :: e64 (b2 % 64) :: btoaBytes rest

/-- `btoa`: throws `InvalidCharacterError` when any code unit of the
input exceeds 255, else emits standard Base64. -/
def btoaJs (s : List Nat) : Except JsErr (List Nat) :=
  if s.all (fun c => c ≤ 255) then .ok (btoaBytes s) else .error .invalidChar

/-- The chars-to-bytes core of `atob`: decode four chars to three bytes,
with `=` padding accepted only at the very end; `none` on malformed
input (modelling the thrown `InvalidCharacterError`). -/
def atobBytes : List Nat → Option (List Nat)
  | [] => some []
  | c0 :: c1 :: c2 :: c3 :: rest => do
      let d0 ← dec64 c0
      let d1 ← dec64 c1
      if c2 = 61 then
        if c3 = 61 ∧ rest = [] then some [d0 * 4 + d1 / 16] else none
      else do
        let d2 ← dec64 c2
        if c3 = 61 then
          if rest = [] then some [d0 * 4 + d1 / 16, d1 % 16 * 16 + d2 / 4]
          else none
        else do
          let d3 ← dec64 c3
          let tail ← atobBytes rest
          some ((d0 * 4 + d1 / 16) :: (d1 % 16 * 16 + d2 / 4) ::
            (d2 % 4 * 64 + d3) :: tail)
  | _ => none

/-- `atob` as an `Except`-returning operation. -/
def atobJs (s : List Nat) : Except JsErr (List Nat) :=
  match atobBytes s with
  | some r => .ok r
  | none => .error .invalidChar

/-- Per-char effect of `.replace(///g, '_')`. -/
def subSlashUnderscore (c : Nat) : Nat := if c = 47 then 95 else c

/-- Per-char effect of `.replace(/+/g, '-')`. -/
def subPlusDash (c : Nat) : Nat := if c = 43 then 45 else c

/-- Per-char effect of `.replace(/_/g, '/')`. -/
def subUnderscoreSlash (c : Nat) : Nat := if c = 95 then 47 else c

/-- Per-char effect of the second decode-side replace: dash back to plus. -/
def subDashPlus (c : Nat) : Nat := if c = 45 then 43 else c

/-- `gdEncodeBase64` from `src/util/crypto/encdec.ts` (the browser
definition, the one implementing the service variant):
`btoa(str).replace(///g,'_').replace(/+/g,'-')`. -/
def gdEncodeBase64 (s : List Nat) : Except JsErr (List Nat) :=
  match btoaJs s with
  | .ok b => .ok ((b.map subSlashUnderscore).map subPlusDash)
  | .error e => .error e

/-- `gdDecodeBase64` from `src/util/crypto/encdec.ts`: map underscore
back to slash, then dash back to plus, then `atob` the result. -/
def gdDecodeBase64 (s : List Nat) : Except JsErr (List Nat) :=
  atobJs ((s.map subUnderscoreSlash).map subDashPlus)

/-- Composition `gdDecodeBase64(gdEncodeBase64(s))`, with a thrown
encoding error propagating. -/
def encodeThenDecode (s : List Nat) : Except JsErr (List Nat) :=
  match gdEncodeBase64 s with
  | .ok b => gdDecodeBase64 b
  | .error e => .error e

theorem dec64_e64 : ∀ n, n < 64 → dec64 (e64 n) = some n := by
  decide

theorem e64_ne_61 : ∀ n, n < 64 → e64 n ≠ 61 := by
  decide

/-- Induction principle matching the three-bytes-at-a-time structure of
Base64 encoding. -/
theorem threeStepInduction {α : Type} {P : List α → Prop} (h0 : P [])
    (h1 : ∀ a, P [a]) (h2 : ∀ a b, P [a, b])
    (h3 : ∀ a b c l, P l → P (a :: b :: c :: l)) :
    ∀ l, P l
  | [] => h0
  | [a] => h1 a
  | [a, b] => h2 a b
  | a :: b :: c :: l => h3 a b c l (threeStepInduction h0 h1 h2 h3 l)

theorem atobBytes_btoaBytes :
    ∀ s : List Nat, (∀ b ∈ s, b ≤ 255) →
      atobBytes (btoaBytes s) = some s := by
  refine threeStepInduction ?_ ?_ ?_ ?_
  · intro _; rfl
  · intro b0 h
    have hb0 : b0 ≤ 255 := h b0 (by simp)
    have e0 := dec64_e64 (b0 / 4) (by omega)
    have e1 := dec64_e64 (b0 % 4 * 16) (by omega)
    simp [btoaBytes, atobBytes, e0, e1]
    omega
  · intro b0 b1 h
    have hb0 : b0 ≤ 255 := h b0 (by simp)
    have hb1 : b1 ≤ 255 := h b1 (by simp)
    have e0 := dec64_e64 (b0 / 4) (by omega)
    have e1 := dec64_e64 (b0 % 4 * 16 + b1 / 16) (by omega)
    have e2 := dec64_e64 (b1 % 16 * 4) (by omega)
    have n2 := e64_ne_61 (b1 % 16 * 4) (by omega)
    simp [btoaBytes, atobBytes, e0, e1, e2, n2]
    omega
  · intro b0 b1 b2 l ih h
    have hb0 : b0 ≤ 255 := h b0 (by simp)
    have hb1 : b1 ≤ 255 := h b1 (by simp)
    have hb2 : b2 ≤ 255 := h b2 (by simp)
    have htail : atobBytes (btoaBytes l) = some l :=
      ih (fun b hb => h b (by simp [hb]))
    have e0 := dec64_e64 (b0 / 4) (by omega)
    have e1 := dec64_e64 (b0 % 4 * 16 + b1 / 16) (by omega)
    have e2 := dec64_e64 (b1 % 16 * 4 + b2 / 64) (by omega)
    have e3 := dec64_e64 (b2 % 64) (by omega)
    have n2 := e64_ne_61 (b1 % 16 * 4 + b2 / 64) (by omega)
    have n3 := e64_ne_61 (b2 % 64) (by omega)
    have hv0 : b0 / 4 * 4 + (b0 % 4 * 16 + b1 / 16) / 16 = b0 := by omega
    have hv1 : (b0 % 4 * 16 + b1 / 16) % 16 * 16 +
        (b1 % 16 * 4 + b2 / 64) / 4 = b1 := by omega
    have hv2 : (b1 % 16 * 4 + b2 / 64) % 4 * 64 + b2 % 64 = b2 := by omega
    simp [btoaBytes, atobBytes, e0, e1, e2, e3, n2, n3, htail, hv0, hv1,
      hv2]

theorem btoaBytes_mem :
    ∀ s : List Nat, (∀ b ∈ s, b ≤ 255) →
      ∀ c ∈ btoaBytes s, c = 61 ∨ ∃ n, n < 64 ∧ c = e64 n := by
  refine threeStepInduction ?_ ?_ ?_ ?_
  · intro _ c hc; simp [btoaBytes] at hc
  · intro b0 h c hc
    have hb0 : b0 ≤ 255 := h b0 (by simp)
    simp only [btoaBytes, List.mem_cons, List.not_mem_nil, or_false] at hc
    rcases hc with rfl | rfl | rfl | rfl
    · exact Or.inr ⟨b0 / 4, by omega, rfl⟩
    · exact Or.inr ⟨b0 % 4 * 16, by omega, rfl⟩
    · exact Or.inl rfl
    · exact Or.inl rfl
  · intro b0 b1 h c hc
    have hb0 : b0 ≤ 255 := h b0 (by simp)
    have hb1 : b1 ≤ 255 := h b1 (by simp)
    simp only [btoaBytes, List.mem_cons, List.not_mem_nil, or_false] at hc
    rcases hc with rfl | rfl | rfl | rfl
    · exact Or.inr ⟨b0 / 4, by omega, rfl⟩
    · exact Or.inr ⟨b0 % 4 * 16 + b1 / 16, by omega, rfl⟩
    · exact Or.inr ⟨b1 % 16 * 4, by omega, rfl⟩
    · exact Or.inl rfl
  · intro b0 b1 b2 l ih h c hc
    have hb0 : b0 ≤ 255 := h b0 (by simp)
    have hb1 : b1 ≤ 255 := h b1 (by simp)
    have hb2 : b2 ≤ 255 := h b2 (by simp)
    simp only [btoaBytes, List.mem_cons] at hc
    rcases hc with rfl | rfl | rfl | rfl | hc
    · exact Or.inr ⟨b0 / 4, by omega, rfl⟩
    · exact Or.inr ⟨b0 % 4 * 16 + b1 / 16, by omega, rfl⟩
    · exact Or.inr ⟨b1 % 16 * 4 + b2 / 64, by omega, rfl⟩
    · exact Or.inr ⟨b2 % 64, by omega, rfl⟩
    · exact ih (fun b hb => h b (by simp [hb])) c hc

theorem subRound_id :
    ∀ c, (c = 61 ∨ ∃ n, n < 64 ∧ c = e64 n) →
      subDashPlus (subUnderscoreSlash (subPlusDash (subSlashUnderscore c)))
        = c := by
  rintro c (rfl | ⟨n, hn, rfl⟩)
  · rfl
  · revert n
    decide

/-- Round-trip of the service Base64 variant on byte strings, shared by
the Base64 and cipher developments. -/
theorem encodeThenDecode_ok (s : List Nat) (hs : ∀ b ∈ s, b ≤ 255) :
    encodeThenDecode s = .ok s := by
  have hall : (s.all fun c => c ≤ 255) = true := by
    simpa [List.all_eq_true] using hs
  have hmaps :
      ((((btoaBytes s).map subSlashUnderscore).map subPlusDash).map
            subUnderscoreSlash).map subDashPlus = btoaBytes s := by
    rw [List.map_map, List.map_map, List.map_map]
    exact (List.map_congr_left fun c hc =>
      subRound_id c (btoaBytes_mem s hs c hc)).trans (List.map_id _)
  simp only [encodeThenDecode, gdEncodeBase64, btoaJs, hall, if_true,
    gdDecodeBase64]
  rw [hmaps]
  unfold atobJs
  rw [atobBytes_btoaBytes s hs]

/-- Claim C3: for every byte string `s` (each element a char code in
0–255, any length including 0), `gdDecodeBase64(gdEncodeBase64(s))`
equals `s`: the service Base64 variant with `/` replaced by `_` and `+`
replaced by `-` round-trips exactly. -/
theorem gd_base64_roundtrip (s : List Nat) (hs : ∀ b ∈ s, b ≤ 255) :
    encodeThenDecode s = .ok s :=
  encodeThenDecode_ok s hs

/-- Witness for claim C3 at the concrete byte string `[0, 97, 255, 7]`:
encoding and decoding with the service variant returns the input. -/
theorem gd_base64_roundtrip_witness :
    encodeThenDecode [0, 97, 255, 7] = .ok [0, 97, 255, 7] :=
  gd_base64_roundtrip [0, 97, 255, 7] (by decide)

/-- JS `%` on a nonnegative index: `i % 0` is `NaN`, modelled as
`none`. -/
def jsMod (a b : Nat) : Option Nat := if b = 0 then none else some (a % b)

/-- `s.charCodeAt(i)` with JS semantics: a `NaN` index is coerced to
position 0, and an out-of-range read yields `NaN` (`none`). -/
def jsCharCodeAt (s : List Nat) (i : Option Nat) : Option Nat :=
  match i with
  | none => s.get? 0
  | some j => s.get? j

/-- `a ^ b` where the right operand may be `NaN`: `ToInt32(NaN)` is 0.
All code units are below `2 ^ 16`, so no 32-bit wraparound occurs. -/
def jsXorNan (a : Nat) (b : Option Nat) : Nat := a ^^^ b.getD 0

/-- The mapped body of `cipher`:
`char.charCodeAt(0) ^ key.charCodeAt(i % key.length)`. -/
def cipherChar (key : List Nat) (i c : Nat) : Nat :=
  jsXorNan c (jsCharCodeAt key (jsMod i key.length))

/-- The indexed map underlying `cipher`, with explicit index
accumulator. -/
def cipherFrom (key : List Nat) : Nat → List Nat → List Nat
  | _, [] => []
  | i, c :: cs => cipherChar key i c :: cipherFrom key (i + 1) cs

/-- `cipher(str, key)` from `src/util/crypto/cipher.ts`: XOR each code
unit of `str` with the cyclically indexed code unit of `key`, then
rebuild the string with `String.fromCodePoint`, which throws
`RangeError` on a code point above `0x10FFFF` (1114111). -/
def cipher (s key : List Nat) : Except JsErr (List Nat) :=
  if (cipherFrom key 0 s).all (fun c => c ≤ 1114111) then
    .ok (cipherFrom key 0 s)
  else .error .rangeError

/-- `encrypt(str, key)` from `src/util/crypto/cipher.ts`:
`btoa(cipher(str, key))` with the service substitution (slash to
underscore, then plus to dash) — the same postprocessing as
`gdEncodeBase64`. -/
def encrypt (s key : List Nat) : Except JsErr (List Nat) :=
  match cipher s key with
  | .ok c => gdEncodeBase64 c
  | .error e => .error e

/-- `decrypt(str, key)` from `src/util/crypto/cipher.ts`:
`cipher(atob(str with the substitution undone), key)` — the
preprocessing is the same as `gdDecodeBase64`. -/
def decrypt (s key : List Nat) : Except JsErr (List Nat) :=
  match gdDecodeBase64 s with
  | .ok d => cipher d key
  | .error e => .error e

/-- Composition `decrypt(encrypt(s, key), key)`, a thrown encryption
error propagating. -/
def encryptThenDecrypt (s key : List Nat) : Except JsErr (List Nat) :=
  match encrypt s key with
  | .ok e => decrypt e key
  | .error err => .error err

theorem xor_byte_bound {a b : Nat} (ha : a ≤ 255) (hb : b ≤ 255) :
    a ^^^ b ≤ 255 := by
  have h : a ^^^ b < 2 ^ 8 :=
    Nat.bitwise_lt (by omega) (by omega)
  omega

theorem cipherFrom_nil_key : ∀ (i : Nat) (s : List Nat),
    cipherFrom [] i s = s := by
  intro i s
  induction s generalizing i with
  | nil => rfl
  | cons c cs ih =>
      simp [cipherFrom, cipherChar, jsMod, jsCharCodeAt, jsXorNan, ih]

theorem cipherFrom_bound (key : List Nat) (hk : ∀ c ∈ key, c ≤ 255) :
    ∀ (i : Nat) (s : List Nat), (∀ c ∈ s, c ≤ 255) →
      ∀ x ∈ cipherFrom key i s, x ≤ 255 := by
  intro i s
  induction s generalizing i with
  | nil => intro _ x hx; simp [cipherFrom] at hx
  | cons c cs ih =>
      intro hs x hx
      simp only [cipherFrom, List.mem_cons] at hx
      rcases hx with rfl | hx
      · have hc : c ≤ 255 := hs c (by simp)
        unfold cipherChar jsXorNan
        cases hkc : jsCharCodeAt key (jsMod i key.length) with
        | none => simpa using hc
        | some kc =>
            have hmem : kc ∈ key := by
              unfold jsCharCodeAt at hkc
              cases hmod : jsMod i key.length with
              | none =>
                  simp only [hmod] at hkc
                  exact List.get?_mem hkc
              | some j =>
                  simp only [hmod] at hkc
                  exact List.get?_mem hkc
            exact xor_byte_bound hc (hk kc hmem)
      · exact ih (i + 1) (fun b hb => hs b (by simp [hb])) x hx

theorem cipherFrom_invol (key : List Nat) (hk : key ≠ []) :
    ∀ (i : Nat) (s : List Nat), cipherFrom key i (cipherFrom key i s) = s := by
  intro i s
  induction s generalizing i with
  | nil => rfl
  | cons c cs ih =>
      have hlen : 0 < key.length := List.length_pos.mpr hk
      have hmod : jsMod i key.length = some (i % key.length) := by
        unfold jsMod
        rw [if_neg (by omega)]
      have hr : i % key.length < key.length := Nat.mod_lt _ hlen
      obtain ⟨kc, hkc⟩ : ∃ kc, key.get? (i % key.length) = some kc := by
        cases hg : key.get? (i % key.length) with
        | none =>
            rw [List.get?_eq_none] at hg
            omega
        | some kc => exact ⟨kc, rfl⟩
      simp only [cipherFrom, cipherChar, hmod, jsCharCodeAt, hkc, jsXorNan,
        Option.getD_some, ih (i + 1)]
      rw [Nat.xor_cancel_right]

/-- Claim C10: `cipher(s, "")` with the empty key returns `s` unchanged
and raises no error: `i % 0` is `NaN`, `"".charCodeAt` of anything is
`NaN`, and XOR with `NaN` coerces to XOR with 0, so the empty-key cipher
is the identity.  The hypothesis states that `s` is a JS string (a list
of UTF-16 code units, each below `2 ^ 16`). -/
theorem cipher_empty_key (s : List Nat) (hs : ∀ c ∈ s, c < 65536) :
    cipher s [] = .ok s := by
  have hall : (s.all fun c => c ≤ 1114111) = true := by
    simp only [List.all_eq_true, decide_eq_true_eq]
    intro c hc
    have := hs c hc
    omega
  simp [cipher, cipherFrom_nil_key, hall]

/-- Witness for claim C10 at the concrete string `"ab"`. -/
theorem cipher_empty_key_witness : cipher [97, 98] [] = .ok [97, 98] :=
  cipher_empty_key [97, 98] (by decide)

instance {e a : Type} [DecidableEq e] [DecidableEq a] :
    DecidableEq (Except e a) := fun x y =>
  match x, y with
  | .ok u, .ok v =>
      if h : u = v then .isTrue (by rw [h])
      else .isFalse (fun hh => h (Except.ok.inj hh))
  | .error u, .error v =>
      if h : u = v then .isTrue (by rw [h])
      else .isFalse (fun hh => h (Except.error.inj hh))
  | .ok _, .error _ => .isFalse (fun hh => Except.noConfusion hh)
  | .error _, .ok _ => .isFalse (fun hh => Except.noConfusion hh)

/-- Counterexample to claim C4 as stated: with the printable-ASCII
string `"a"` and the non-empty key `"\u0100"` (the single code unit
256), `encrypt` throws `InvalidCharacterError` from `btoa` — the XOR
output 353 is not a Latin-1 code — so `decrypt(encrypt(s, k), k)` is an
error, not `s`. -/
theorem encrypt_decrypt_counterexample :
    encryptThenDecrypt [97] [256] = .error .invalidChar ∧
    Except.error JsErr.invalidChar ≠
      (Except.ok [97] : Except JsErr (List Nat)) := by
  decide

/-- Claim C4 (amended): for every string `s` of Latin-1-range code units
(printable ASCII included) and every non-empty key `k` all of whose code
units are at most 255, `decrypt(encrypt(s, k), k)` equals `s`, where
`encrypt` is the XOR cipher followed by the service Base64 variant and
`decrypt` is its inverse; keys with a code unit above 255 instead make
`btoa` throw inside `encrypt`. -/
theorem encrypt_decrypt_roundtrip (s key : List Nat) (hk : key ≠ [])
    (hks : ∀ c ∈ key, c ≤ 255) (hs : ∀ c ∈ s, c ≤ 255) :
    encryptThenDecrypt s key = .ok s := by
  have hout : ∀ x ∈ cipherFrom key 0 s, x ≤ 255 :=
    cipherFrom_bound key hks 0 s hs
  have hciph : cipher s key = .ok (cipherFrom key 0 s) := by
    have hall : ((cipherFrom key 0 s).all fun c => c ≤ 1114111) = true := by
      simp only [List.all_eq_true, decide_eq_true_eq]
      intro c hc
      have := hout c hc
      omega
    simp [cipher, hall]
  have hb64 := encodeThenDecode_ok (cipherFrom key 0 s) hout
  unfold encryptThenDecrypt encrypt
  rw [hciph]
  unfold encodeThenDecode at hb64
  cases henc : gdEncodeBase64 (cipherFrom key 0 s) with
  | error e => rw [henc] at hb64; exact absurd hb64 (by simp)
  | ok e =>
      rw [henc] at hb64
      have hb64d : gdDecodeBase64 e = .ok (cipherFrom key 0 s) := hb64
      show (match gdEncodeBase64 (cipherFrom key 0 s) with
            | .ok b => decrypt b key
            | .error err => (.error err : Except JsErr (List Nat))) = .ok s
      rw [henc]
      show decrypt e key = .ok s
      unfold decrypt
      rw [hb64d]
      have hall : (s.all fun c => c ≤ 1114111) = true := by
        simp only [List.all_eq_true, decide_eq_true_eq]
        intro c hc
        have := hs c hc
        omega
      simp [cipher, cipherFrom_invol key hk, hall]

/-- Witness for the amended claim C4 at `s = "hi"`, `k = "37526"`. -/
theorem encrypt_decrypt_roundtrip_witness :
    encryptThenDecrypt [104, 105] [51, 55, 53, 50, 54] =
      .ok [104, 105] :=
  encrypt_decrypt_roundtrip [104, 105] [51, 55, 53, 50, 54]
    (by decide) (by decide) (by decide)

/-- Fuel-driven decimal rendering of a natural number (structural, so it
evaluates in the kernel). -/
def natToDigitsCore : Nat → Nat → List Nat
  | 0, _ => []
  | fuel + 1, n =>
      if n < 10 then [48 + n]
      else natToDigitsCore fuel (n / 10) ++ [48 + n % 10]

/-- Decimal digit string of a natural number. -/
def natToDigits (n : Nat) : List Nat := natToDigitsCore (n + 1) n

/-- JS `Number.prototype.toString` for integral values. -/
def intToStr (z : Int) : List Nat :=
  if z < 0 then 45 :: natToDigits z.natAbs else natToDigits z.natAbs

/-- Stringification of a rational number.  Every number the library
stringifies in the verified claims is integral; the non-integral
rendering below is a placeholder never exercised by a claim. -/
def qToString (q : ℚ) : List Nat :=
  if q.den = 1 then intToStr q.num
  else intToStr q.num ++ 47 :: natToDigits q.den

/-- `value.toString()` as used by the parameter serializer. -/
def jsValToString : JsVal → List Nat
  | .vstr s => s
  | .vnum q => qToString q
  | .undefinedVal => [117, 110, 100, 101, 102, 105, 110, 101, 100]
  | .vnan => [78, 97, 78]

/-- Object-spread / `Object.assign` merge: write each update entry over
the base object in order (overwriting existing keys in place). -/
def objAssign (base upd : JsObj) : JsObj :=
  upd.foldl (fun o p => objSet o p.1 p.2) base

/-- The three default protocol-version entries seeded by the
`GDRequestParams` constructor: `gdw: 0`, `gameVersion: 21`,
`binaryVersion: 35`. -/
def defaultParams : JsObj :=
  [([103, 100, 119], .vnum 0),
   ([103, 97, 109, 101, 86, 101, 114, 115, 105, 111, 110], .vnum 21),
   ([98, 105, 110, 97, 114, 121, 86, 101, 114, 115, 105, 111, 110],
     .vnum 35)]

/-- The fixed shared secrets, keyed by endpoint class
(`src/util/param.ts`): `db`, `account`, `moderator`. -/
inductive SecretType where
  | db
  | account
  | moderator
deriving DecidableEq, Repr

/-- Literal secret for an endpoint class. -/
def secretFor : SecretType → List Nat
  | .db => [87, 109, 102, 100, 50, 56, 57, 51, 103, 98, 55]
  | .account => [87, 109, 102, 118, 51, 56, 57, 57, 103, 99, 57]
  | .moderator => [87, 109, 102, 112, 51, 56, 55, 57, 103, 99, 51]

/-- The `GDRequestParams` state: its private `data` object. -/
structure GDRequestParams where
  data : JsObj
deriving DecidableEq, Repr

/-- The constructor: `this.data = (three defaults, ...data)` — the
defaults are seeded first and the explicit fields spread over them. -/
def newGDRequestParams (data : JsObj) : GDRequestParams :=
  ⟨objAssign defaultParams data⟩

/-- `insertParams(data)`: `Object.assign(this.data, data)` — shallow
merge, overwriting existing keys. -/
def insertParams (p : GDRequestParams) (data : JsObj) : GDRequestParams :=
  ⟨objAssign p.data data⟩

/-- `authorize(type)`: store the fixed shared secret under the reserved
key `secret`. -/
def authorize (p : GDRequestParams) (t : SecretType) : GDRequestParams :=
  ⟨objSet p.data [115, 101, 99, 114, 101, 116] (.vstr (secretFor t))⟩

/-- Upper-case hex digit char code. -/
def hexUp (n : Nat) : Nat := if n < 10 then 48 + n else 55 + n

/-- Bytes that `application/x-www-form-urlencoded` passes through
unescaped. -/
def isUrlSafe (c : Nat) : Bool :=
  isDigit c || (65 ≤ c && c ≤ 90) || (97 ≤ c && c ≤ 122) ||
    c = 42 || c = 45 || c = 46 || c = 95

/-- Form-encode one ASCII string (space to `+`, unsafe bytes
percent-escaped; all claim data is ASCII, so no UTF-8 step is
modelled). -/
def formEncode (s : List Nat) : List Nat :=
  s.flatMap fun c =>
    if isUrlSafe c then [c]
    else if c = 32 then [43]
    else [37, hexUp (c / 16), hexUp (c % 16)]

/-- `resolve()`: stringify every value, keeping insertion order. -/
def resolve (p : GDRequestParams) : List (List Nat × List Nat) :=
  p.data.map fun kv => (kv.1, jsValToString kv.2)

/-- `URLSearchParams.toString()`: `k=v` pairs joined with `&`. -/
def serializeBody : List (List Nat × List Nat) → List Nat
  | [] => []
  | [(k, v)] => formEncode k ++ 61 :: formEncode v
  | (k, v) :: rest => formEncode k ++ 61 :: formEncode v ++ 38 ::
      serializeBody rest

/-- Claim C7: a freshly constructed request parameter builder with no
explicit fields serializes to the form body
`gdw=0&gameVersion=21&binaryVersion=35`, and for every key `x`,
inserting `x: 1` and then `x: 2` leaves the builder's map with `x = 2`
(insert shallow-merges, overwriting existing keys). -/
theorem params_defaults_and_insert :
    serializeBody (resolve (newGDRequestParams [])) =
      [103, 100, 119, 61, 48, 38,
       103, 97, 109, 101, 86, 101, 114, 115, 105, 111, 110, 61, 50, 49, 38,
       98, 105, 110, 97, 114, 121, 86, 101, 114, 115, 105, 111, 110, 61,
       51, 53] ∧
    ∀ x, objGet
        (insertParams (insertParams (newGDRequestParams []) [(x, .vnum 1)])
          [(x, .vnum 2)]).data x = some (.vnum 2) := by
  refine ⟨by decide, fun x => ?_⟩
  simp [insertParams, newGDRequestParams, objAssign, objGet_objSet]

/-- A JS `this` binding: `undefined` (as at the top level of an ES
module) or an object. -/
inductive JsThisVal where
  | undefThis
  | objThis (fields : JsObj)

/-- Property access `o.name`: throws `TypeError` when the receiver is
`undefined`; reads (possibly `undefined`-valued) properties of an
object receiver. -/
def getProp : JsThisVal → List Nat → Except JsErr JsVal
  | .undefThis, _ => .error .typeError
  | .objThis fs, name => .ok (objGetVal fs name)

/-- Top-level `this` inside `src/util/decompress.ts`: the file is an ES
module (it has `import`/`export` clauses), where top-level `this` is
`undefined`. -/
def moduleThis : JsThisVal := .undefThis

/-- WebIDL `DOMString` coercion, applied by `atob` to its argument. -/
def toDOMString : JsVal → List Nat
  | .vstr s => s
  | .vnum q => qToString q
  | .undefinedVal => [117, 110, 100, 101, 102, 105, 110, 101, 100]
  | .vnan => [78, 97, 78]

/-- The Base64-decoding step of the browser (non-Node) branch of the
standalone `decompress` (src/util/decompress.ts):
`gdDecodeBase64(this.data).split('').map(c => c.charCodeAt(0))`.
The trailing split/charCodeAt pass is the identity on the code-unit
list; the receiver of `.data` is module-level `this`, not the `data`
parameter. -/
def browserRawBytes (_data : List Nat) : Except JsErr (List Nat) :=
  match getProp moduleThis [100, 97, 116, 97] with
  | .error e => .error e
  | .ok v => gdDecodeBase64 (toDOMString v)

/-- Claim C9: in the browser branch of `decompress`, the Base64-decoding
step never reads the function's `data` argument — it dereferences
`this.data` with `this` undefined, so the branch throws a `TypeError`
for every input instead of decompressing it. -/
theorem browser_decompress_ignores_data :
    (∀ data, browserRawBytes data = .error .typeError) ∧
    ∀ d1 d2, browserRawBytes d1 = browserRawBytes d2 :=
  ⟨fun _ => rfl, fun _ _ => rfl⟩

/-- Modelled from the spec: the fixed account-password XOR key used to
derive the obfuscated password token (`gjp`).  The literal lives in a
crypto-constants module that is not among the provided sources; the spec
pins only that it is a fixed key, modelled here as a five-digit literal.
No theorem below depends on the particular value, only on its being a
non-empty Latin-1 string. -/
def accountKey : List Nat := [51, 55, 53, 50, 54]

/-- Failure modes of the login flow: the explicit
`TypeError('could not log in because the credentials were invalid')`
thrown on the `-1` sentinel, or an error thrown by a JS primitive. -/
inductive LoginError where
  | invalidCredentials
  | jsThrown (e : JsErr)
deriving DecidableEq, Repr

/-- The session token assembled by `UserCreator.login`
(src/entities/user.ts): username, numeric account ID (`NaN` as `none`),
and the obfuscated password token. -/
structure Credentials where
  userName : List Nat
  accountID : Option ℚ
  gjp : List Nat
deriving DecidableEq, Repr

/-- Response processing of `UserCreator.login`: on the sentinel body
`-1`, throw the invalid-credentials `TypeError`; otherwise take the
first comma-separated token of the body, coerce it with unary plus into
`accountID`, and derive `gjp = encrypt(password, accountKey)`. -/
def processLogin (username password response : List Nat) :
    Except LoginError Credentials :=
  if response = [45, 49] then .error .invalidCredentials
  else
    match encrypt password accountKey with
    | .error e => .error (.jsThrown e)
    | .ok gjp =>
        .ok ⟨username, toNumber ((jsSplit 44 response).headD []), gjp⟩

theorem cipherFrom_length (key : List Nat) :
    ∀ (i : Nat) (s : List Nat), (cipherFrom key i s).length = s.length := by
  intro i s
  induction s generalizing i with
  | nil => rfl
  | cons c cs ih => simp [cipherFrom, ih]

theorem btoaBytes_ne_nil (s : List Nat) (h : s ≠ []) :
    btoaBytes s ≠ [] := by
  match s with
  | [] => exact absurd rfl h
  | [b0] => simp [btoaBytes]
  | [b0, b1] => simp [btoaBytes]
  | b0 :: b1 :: b2 :: rest => simp [btoaBytes]

/-- Claim C5: when the login response body is the sentinel `-1`, the
flow signals the distinct invalid-credentials condition and produces no
session token; when the response is `12345,999`, the flow yields a
session token with `accountID = 12345` and a non-empty `gjp` computed by
encrypting the password with the fixed account-password key.  The
hypotheses state that the password is a non-empty Latin-1 string. -/
theorem login_flow (u p : List Nat) (hp : p ≠ [])
    (hp255 : ∀ c ∈ p, c ≤ 255) :
    processLogin u p [45, 49] = .error .invalidCredentials ∧
    ∃ creds, processLogin u p [49, 50, 51, 52, 53, 44, 57, 57, 57] =
        .ok creds ∧
      creds.accountID = some 12345 ∧ creds.gjp ≠ [] ∧
      encrypt p accountKey = .ok creds.gjp := by
  have hkeys : ∀ c ∈ accountKey, c ≤ 255 := by decide
  have hout : ∀ x ∈ cipherFrom accountKey 0 p, x ≤ 255 :=
    cipherFrom_bound accountKey hkeys 0 p hp255
  have hciph : cipher p accountKey = .ok (cipherFrom accountKey 0 p) := by
    have hall :
        ((cipherFrom accountKey 0 p).all fun c => c ≤ 1114111) = true := by
      simp only [List.all_eq_true, decide_eq_true_eq]
      intro c hc
      have := hout c hc
      omega
    simp [cipher, hall]
  have hb64 : btoaJs (cipherFrom accountKey 0 p) =
      .ok (btoaBytes (cipherFrom accountKey 0 p)) := by
    unfold btoaJs
    rw [if_pos]
    simp only [List.all_eq_true, decide_eq_true_eq]
    exact hout
  have henc : encrypt p accountKey =
      .ok (((btoaBytes (cipherFrom accountKey 0 p)).map
        subSlashUnderscore).map subPlusDash) := by
    unfold encrypt
    rw [hciph]
    show gdEncodeBase64 (cipherFrom accountKey 0 p) = _
    unfold gdEncodeBase64
    rw [hb64]
  have hcne : cipherFrom accountKey 0 p ≠ [] := by
    intro hc
    have := cipherFrom_length accountKey 0 p
    rw [hc] at this
    exact hp (List.length_eq_zero.mp this.symm)
  have hgne : ((btoaBytes (cipherFrom accountKey 0 p)).map
      subSlashUnderscore).map subPlusDash ≠ [] := by
    simp only [ne_eq, List.map_eq_nil_iff]
    exact btoaBytes_ne_nil _ hcne
  refine ⟨rfl, ⟨u, toNumber [49, 50, 51, 52, 53],
      ((btoaBytes (cipherFrom accountKey 0 p)).map subSlashUnderscore).map
        subPlusDash⟩, ?_, ?_, hgne, henc⟩
  · unfold processLogin
    rw [if_neg (by decide), henc]
    rfl
  · show toNumber [49, 50, 51, 52, 53] = some 12345
    decide

/-- Witness for claim C5 at the concrete password `"hi"` and username
`"a"`. -/
theorem login_flow_witness :
    processLogin [97] [104, 105] [45, 49] =
        .error LoginError.invalidCredentials ∧
    ∃ creds, processLogin [97] [104, 105]
        [49, 50, 51, 52, 53, 44, 57, 57, 57] = .ok creds ∧
      creds.accountID = some 12345 ∧ creds.gjp ≠ [] ∧
      encrypt [104, 105] accountKey = .ok creds.gjp :=
  login_flow [97] [104, 105] (by decide) (by decide)

/-- The three decompression framings the auto-detector can pick. -/
inductive Frame where
  | gzip
  | raw
  | zlib
deriving DecidableEq, Repr

/-- The gzip-magic test of `src/util/node-flate.ts`:
`dat[0] == 31 && dat[1] == 139` — only the first two bytes; an
out-of-range `Uint8Array` read is `undefined` and compares unequal. -/
def gzipMagic2 (dat : List Nat) : Prop :=
  dat.get? 0 = some 31 ∧ dat.get? 1 = some 139

instance (dat : List Nat) : Decidable (gzipMagic2 dat) := by
  unfold gzipMagic2; infer_instance

/-- The failing-zlib-header test:
`(dat[0] & 15) != 8 || dat[0] >> 4 > 7 || ((dat[0] << 8 | dat[1]) % 31)`
— with `undefined` coercing to 0 in the arithmetic. -/
def zlibCheckFails (dat : List Nat) : Prop :=
  ((dat.get? 0).getD 0).land 15 ≠ 8 ∨ 7 < (dat.get? 0).getD 0 >>> 4 ∨
    ((((dat.get? 0).getD 0) <<< 8).lor ((dat.get? 1).getD 0)) % 31 ≠ 0

instance (dat : List Nat) : Decidable (zlibCheckFails dat) := by
  unfold zlibCheckFails; infer_instance

/-- Routing of `decompress` in `src/util/node-flate.ts`: gzip on the
two-byte magic, else raw-inflate when the zlib-header check fails, else
zlib inflate. -/
def route (dat : List Nat) : Frame :=
  if gzipMagic2 dat then .gzip
  else if zlibCheckFails dat then .raw
  else .zlib

/-- Routing of the `decompress` variant in the bundled sources
(part_006): `dat[0] == 31 && dat[1] == 139 && dat[2] == 8` — the full
three-byte gzip magic. -/
def routeV2 (dat : List Nat) : Frame :=
  if dat.get? 0 = some 31 ∧ dat.get? 1 = some 139 ∧ dat.get? 2 = some 8
    then .gzip
  else if zlibCheckFails dat then .raw
  else .zlib

/-- Modelled from the spec (refinement reference, not source): the
routing exactly as the claim words it — three-byte gzip magic
`0x1F 0x8B 0x08`, then the failing-zlib-header test, then zlib. -/
def routeSpec (dat : List Nat) : Frame :=
  if dat.get? 0 = some 31 ∧ dat.get? 1 = some 139 ∧ dat.get? 2 = some 8
    then .gzip
  else if zlibCheckFails dat then .raw
  else .zlib

/-- `decompress` dispatch with the three platform codecs abstracted
(`zlib.gunzip`, `zlib.inflateRaw`, `zlib.inflate` are external
collaborators; `none` models a decompression error). -/
def decompressWith (gun rawI inf : List Nat → Option (List Nat))
    (dat : List Nat) : Option (List Nat) :=
  match route dat with
  | .gzip => gun dat
  | .raw => rawI dat
  | .zlib => inf dat

/-- Counterexample to claim C2 as stated: on the buffer `1F 8B 00` the
`src/util/node-flate.ts` code routes to gzip (it checks only the first
two magic bytes), while the claim routes it to raw-inflate (its first
byte fails the `& 15 == 8` test once the three-byte magic misses). -/
theorem decompress_routing_counterexample :
    route [31, 139, 0] = Frame.gzip ∧
    routeSpec [31, 139, 0] = Frame.raw ∧
    Frame.gzip ≠ Frame.raw := by
  refine ⟨?_, ?_, by decide⟩ <;> decide

/-- Toy gzip decompressor used to witness the codec hypotheses. -/
def toyGun : List Nat → Option (List Nat)
  | 31 :: 139 :: rest => some rest
  | _ => none

/-- Toy gzip compressor: prepend the two-byte magic. -/
def toyGzipC (p : List Nat) : List Nat := 31 :: 139 :: p

/-- Toy raw-deflate decompressor. -/
def toyRawI : List Nat → Option (List Nat)
  | 1 :: rest => some rest
  | _ => none

/-- Toy raw-deflate compressor: a header byte failing the zlib check. -/
def toyRawC (p : List Nat) : List Nat := 1 :: p

/-- Toy zlib decompressor. -/
def toyInf : List Nat → Option (List Nat)
  | 120 :: 1 :: rest => some rest
  | _ => none

/-- Toy zlib compressor: the valid `78 01` zlib header. -/
def toyZlibC (p : List Nat) : List Nat := 120 :: 1 :: p

/-- Claim C2 (amended): the `src` detector checks only the two-byte
gzip magic `1F 8B` (the bundled variant checks the full three-byte
magic and matches the claimed routing everywhere); on every buffer
whose third byte is 8 — or which lacks the two-byte magic — the two
agree.  Whenever the external codecs satisfy their round-trip contracts
and emit correctly framed headers (gzip output starting `1F 8B`,
raw-deflate output failing the zlib-header check, zlib output passing
it), compress-then-decompress returns the original plaintext through
each of the three framings. -/
theorem decompress_routing_amended :
    (∀ dat, dat.get? 2 = some 8 ∨ ¬gzipMagic2 dat →
        route dat = routeSpec dat) ∧
    (∀ dat, routeV2 dat = routeSpec dat) ∧
    (∀ (gun rawI inf : List Nat → Option (List Nat))
        (gzipC : List Nat → List Nat),
      (∀ p, gun (gzipC p) = some p) →
      (∀ p, gzipMagic2 (gzipC p)) →
      ∀ p, decompressWith gun rawI inf (gzipC p) = some p) ∧
    (∀ (gun rawI inf : List Nat → Option (List Nat))
        (rawC : List Nat → List Nat),
      (∀ p, rawI (rawC p) = some p) →
      (∀ p, ¬gzipMagic2 (rawC p)) →
      (∀ p, zlibCheckFails (rawC p)) →
      ∀ p, decompressWith gun rawI inf (rawC p) = some p) ∧
    (∀ (gun rawI inf : List Nat → Option (List Nat))
        (zlibC : List Nat → List Nat),
      (∀ p, inf (zlibC p) = some p) →
      (∀ p, ¬zlibCheckFails (zlibC p)) →
      ∀ p, decompressWith gun rawI inf (zlibC p) = some p) := by
  refine ⟨?_, ?_, ?_, ?_, ?_⟩
  · intro dat h
    unfold route routeSpec
    by_cases hg : gzipMagic2 dat
    · rcases h with h8 | hng
      · rw [if_pos hg, if_pos ⟨hg.1, hg.2, h8⟩]
      · exact absurd hg hng
    · have hg3 : ¬(dat.get? 0 = some 31 ∧ dat.get? 1 = some 139 ∧
          dat.get? 2 = some 8) := fun h3 => hg ⟨h3.1, h3.2.1⟩
      rw [if_neg hg, if_neg hg3]
  · intro dat
    rfl
  · intro gun rawI inf gzipC hrt hmagic p
    unfold decompressWith route
    rw [if_pos (hmagic p)]
    exact hrt p
  · intro gun rawI inf rawC hrt hnm hfail p
    unfold decompressWith route
    rw [if_neg (hnm p), if_pos (hfail p)]
    exact hrt p
  · intro gun rawI inf zlibC hrt hok p
    unfold decompressWith route
    have hnm : ¬gzipMagic2 (zlibC p) := by
      intro hg
      apply hok p
      unfold zlibCheckFails
      rw [hg.1]
      left
      decide
    rw [if_neg hnm, if_neg (hok p)]
    exact hrt p

/-- Witness for the amended claim C2: all three round-trip conjuncts
applied to the toy codecs at the plaintext `[5, 6]`, and the agreement
conjunct applied to the gzip-framed buffer `1F 8B 08 09`. -/
theorem decompress_routing_amended_witness :
    decompressWith toyGun toyRawI toyInf (toyGzipC [5, 6]) = some [5, 6] ∧
    decompressWith toyGun toyRawI toyInf (toyRawC [5, 6]) = some [5, 6] ∧
    decompressWith toyGun toyRawI toyInf (toyZlibC [5, 6]) = some [5, 6] ∧
    route [31, 139, 8, 9] = routeSpec [31, 139, 8, 9] :=
  ⟨decompress_routing_amended.2.2.1 toyGun toyRawI toyInf toyGzipC
      (fun p => rfl) (fun p => ⟨rfl, rfl⟩) [5, 6],
   decompress_routing_amended.2.2.2.1 toyGun toyRawI toyInf toyRawC
      (fun p => rfl)
      (fun p hg => by
        have h1 : ¬(some 1 = some 31) := by decide
        exact h1 hg.1)
      (fun p => Or.inl (show Nat.land 1 15 ≠ 8 by decide)) [5, 6],
   decompress_routing_amended.2.2.2.2 toyGun toyRawI toyInf toyZlibC
      (fun p => rfl)
      (fun p hf => by
        have h1 : Nat.land 120 15 = 8 := by decide
        have h2 : ¬(7 : Nat) < 120 >>> 4 := by decide
        have h3 : (Nat.lor (120 <<< 8) 1) % 31 = 0 := by decide
        rcases hf with h | h | h
        · exact h h1
        · exact h2 h
        · exact h h3) [5, 6],
   decompress_routing_amended.1 [31, 139, 8, 9] (Or.inl rfl)⟩

/-- 32-bit left rotation. -/
def rotl32 (k x : Nat) : Nat :=
  ((x <<< k) % 4294967296).lor (x >>> (32 - k))

/-- The SHA-1 round constant for round `t`. -/
def sha1K (t : Nat) : Nat :=
  if t < 20 then 1518500249
  else if t < 40 then 1859775393
  else if t < 60 then 2400959708
  else 3395469782

/-- The SHA-1 round function for round `t` (bitwise complement within 32
bits is XOR with the all-ones mask). -/
def sha1F (t b c d : Nat) : Nat :=
  if t < 20 then (b.land c).lor ((b ^^^ 4294967295).land d)
  else if t < 40 then b ^^^ c ^^^ d
  else if t < 60 then ((b.land c).lor (b.land d)).lor (c.land d)
  else b ^^^ c ^^^ d

/-- Big-endian 32-bit words from a byte list (four bytes per word). -/
def bytesToWords : List Nat → List Nat
  | b0 :: b1 :: b2 :: b3 :: rest =>
      (((b0 * 256 + b1) * 256 + b2) * 256 + b3) :: bytesToWords rest
  | _ => []

/-- One schedule-extension step:
append `rotl1(w[len-3] xor w[len-8] xor w[len-14] xor w[len-16])`. -/
def sha1ExtendStep (w : List Nat) : List Nat :=
  w ++ [rotl32 1 (((w.getD (w.length - 3) 0 ^^^ w.getD (w.length - 8) 0)
    ^^^ w.getD (w.length - 14) 0) ^^^ w.getD (w.length - 16) 0)]

/-- Extend the 16-word schedule by `n` further words. -/
def sha1Extend (w : List Nat) : Nat → List Nat
  | 0 => w
  | n + 1 => sha1ExtendStep (sha1Extend w n)

/-- The 80 SHA-1 rounds over one chunk's word schedule. -/
def sha1Rounds : Nat → Nat × Nat × Nat × Nat × Nat → List Nat →
    Nat × Nat × Nat × Nat × Nat
  | _, st, [] => st
  | t, (a, b, c, d, e), wt :: rest =>
      sha1Rounds (t + 1)
        ((rotl32 5 a + sha1F t b c d + e + wt + sha1K t) % 4294967296,
          a, rotl32 30 b, c, d) rest

/-- Process one 64-byte chunk: run the rounds and add into the running
state modulo `2 ^ 32`. -/
def sha1Chunk (st : Nat × Nat × Nat × Nat × Nat) (chunk : List Nat) :
    Nat × Nat × Nat × Nat × Nat :=
  ((st.1 + (sha1Rounds 0 st (sha1Extend (bytesToWords chunk) 64)).1) %
      4294967296,
   (st.2.1 + (sha1Rounds 0 st (sha1Extend (bytesToWords chunk) 64)).2.1) %
      4294967296,
   (st.2.2.1 +
      (sha1Rounds 0 st (sha1Extend (bytesToWords chunk) 64)).2.2.1) %
      4294967296,
   (st.2.2.2.1 +
      (sha1Rounds 0 st (sha1Extend (bytesToWords chunk) 64)).2.2.2.1) %
      4294967296,
   (st.2.2.2.2 +
      (sha1Rounds 0 st (sha1Extend (bytesToWords chunk) 64)).2.2.2.2) %
      4294967296)

/-- `k`-byte big-endian rendering of `n`. -/
def beBytes : Nat → Nat → List Nat
  | 0, _ => []
  | k + 1, n => beBytes k (n / 256) ++ [n % 256]

/-- SHA-1 padding: `0x80`, zeros to 56 mod 64, then the 64-bit
big-endian bit length. -/
def sha1Pad (msg : List Nat) : List Nat :=
  msg ++ 128 :: List.replicate ((119 - msg.length % 64) % 64) 0 ++
    beBytes 8 (msg.length * 8)

/-- Fuel-driven 64-byte chunking (structural, so it evaluates in the
kernel). -/
def chunks64Core : Nat → List Nat → List (List Nat)
  | 0, _ => []
  | _, [] => []
  | fuel + 1, l => l.take 64 :: chunks64Core fuel (l.drop 64)

/-- Split a list into 64-element chunks. -/
def chunks64 (l : List Nat) : List (List Nat) := chunks64Core l.length l

/-- The five 32-bit output words of SHA-1 on a byte string. -/
def sha1Words (msg : List Nat) : Nat × Nat × Nat × Nat × Nat :=
  (chunks64 (sha1Pad msg)).foldl sha1Chunk
    (1732584193, 4023233417, 2562383102, 271733878, 3285377520)

/-- Lower-case hex digit char code. -/
def hexLow (n : Nat) : Nat := if n < 10 then 48 + n else 87 + n

/-- Eight-hex-digit rendering of a 32-bit word. -/
def wordHex (n : Nat) : List Nat :=
  (List.range 8).map fun i => hexLow (n >>> (28 - 4 * i) % 16)

/-- SHA-1 of a byte string as its 40-char lower-case hex string — the
external `sha1` package the checksum call sites import (inputs in this
subsystem are ASCII, so code units coincide with UTF-8 bytes). -/
def sha1 (msg : List Nat) : List Nat :=
  wordHex (sha1Words msg).1 ++ wordHex (sha1Words msg).2.1 ++
    wordHex (sha1Words msg).2.2.1 ++ wordHex (sha1Words msg).2.2.2.1 ++
    wordHex (sha1Words msg).2.2.2.2

/-- Modelled from the spec: the fixed salt for like-endpoint checksums.
The literal lives in a crypto-constants module absent from the provided
sources; no theorem depends on the placeholder value used here. -/
def likeSalt : List Nat := [121, 115, 103, 54, 112, 85, 114, 116, 106,
  110, 48, 74]

/-- Modelled from the spec: the fixed XOR key for like-endpoint
checksums (same provenance note as `likeSalt`). -/
def likeKey : List Nat := [53, 56, 50, 56, 49]

/-- Modelled from the spec: the fixed salt for comment-upload checksums
(same provenance note as `likeSalt`). -/
def commentSalt : List Nat := [120, 80, 84, 54, 105, 85, 114, 116, 119,
  115, 48, 74]

/-- Modelled from the spec: the fixed XOR key for comment-upload
checksums (same provenance note as `likeSalt`). -/
def commentKey : List Nat := [50, 57, 52, 56, 49]

/-- The string hashed by the `like` helper (part_014):
`'' + special + id + like + type + rs + accountID + udid + uuid +
likeSalt`, with `like = +shouldLike`. -/
def likeChkInput (special id : Int) (shouldLike : Bool) (ty : Int)
    (rs : List Nat) (accountID : Int) (udidArg uuidArg : List Nat) :
    List Nat :=
  intToStr special ++ intToStr id ++
    intToStr (if shouldLike then 1 else 0) ++ intToStr ty ++ rs ++
    intToStr accountID ++ udidArg ++ uuidArg ++ likeSalt

/-- The `chk` computed by the `like` helper:
`encrypt(sha1(joined fields + likeSalt), likeKey)`. -/
def likeChk (special id : Int) (shouldLike : Bool) (ty : Int)
    (rs : List Nat) (accountID : Int) (udidArg uuidArg : List Nat) :
    Except JsErr (List Nat) :=
  encrypt (sha1 (likeChkInput special id shouldLike ty rs accountID
    udidArg uuidArg)) likeKey

/-- The string hashed by `LoggedInUser.postComment` (part_014):
`userName + comment + levelID + percent + '0' + commentSalt`. -/
def commentChkInput (userName comment : List Nat) (levelID percent : Int) :
    List Nat :=
  userName ++ comment ++ intToStr levelID ++ intToStr percent ++ 48 ::
    commentSalt

/-- The `chk` computed by `postComment`:
`encrypt(sha1(joined fields + commentSalt), commentKey)`. -/
def commentChk (userName comment : List Nat) (levelID percent : Int) :
    Except JsErr (List Nat) :=
  encrypt (sha1 (commentChkInput userName comment levelID percent))
    commentKey

/-- The checksum scheme as the spec words it:
`encrypt(hash(fields.join('') + salt), key)`. -/
def chkFormula (fields : List (List Nat)) (salt key : List Nat) :
    Except JsErr (List Nat) :=
  encrypt (sha1 (fields.foldr (· ++ ·) [] ++ salt)) key

theorem foldr_append_init (init : List Nat) (l : List (List Nat)) :
    l.foldr (· ++ ·) init = l.foldr (· ++ ·) [] ++ init := by
  induction l with
  | nil => rfl
  | cons a l ih => simp [List.foldr_cons, ih, List.append_assoc]

theorem sha1Chunk_lt (st : Nat × Nat × Nat × Nat × Nat)
    (c : List Nat) :
    (sha1Chunk st c).1 < 4294967296 ∧
    (sha1Chunk st c).2.1 < 4294967296 ∧
    (sha1Chunk st c).2.2.1 < 4294967296 ∧
    (sha1Chunk st c).2.2.2.1 < 4294967296 ∧
    (sha1Chunk st c).2.2.2.2 < 4294967296 := by
  unfold sha1Chunk
  refine ⟨Nat.mod_lt _ (by norm_num), Nat.mod_lt _ (by norm_num),
    Nat.mod_lt _ (by norm_num), Nat.mod_lt _ (by norm_num),
    Nat.mod_lt _ (by norm_num)⟩

theorem foldl_sha1Chunk_lt (cs : List (List Nat)) :
    ∀ st : Nat × Nat × Nat × Nat × Nat,
      st.1 < 4294967296 ∧ st.2.1 < 4294967296 ∧ st.2.2.1 < 4294967296 ∧
        st.2.2.2.1 < 4294967296 ∧ st.2.2.2.2 < 4294967296 →
      (cs.foldl sha1Chunk st).1 < 4294967296 ∧
      (cs.foldl sha1Chunk st).2.1 < 4294967296 ∧
      (cs.foldl sha1Chunk st).2.2.1 < 4294967296 ∧
      (cs.foldl sha1Chunk st).2.2.2.1 < 4294967296 ∧
      (cs.foldl sha1Chunk st).2.2.2.2 < 4294967296 := by
  induction cs with
  | nil => intro st h; exact h
  | cons c cs ih =>
      intro st _
      rw [List.foldl_cons]
      exact ih (sha1Chunk st c) (sha1Chunk_lt st c)

theorem sha1Words_lt (msg : List Nat) :
    (sha1Words msg).1 < 4294967296 ∧
    (sha1Words msg).2.1 < 4294967296 ∧
    (sha1Words msg).2.2.1 < 4294967296 ∧
    (sha1Words msg).2.2.2.1 < 4294967296 ∧
    (sha1Words msg).2.2.2.2 < 4294967296 := by
  unfold sha1Words
  exact foldl_sha1Chunk_lt _ _ (by norm_num)

/-- The SHA-1 state packed into a finite type. -/
def sha1Fin (msg : List Nat) :
    Fin 4294967296 × Fin 4294967296 × Fin 4294967296 × Fin 4294967296 ×
      Fin 4294967296 :=
  (⟨(sha1Words msg).1, (sha1Words_lt msg).1⟩,
   ⟨(sha1Words msg).2.1, (sha1Words_lt msg).2.1⟩,
   ⟨(sha1Words msg).2.2.1, (sha1Words_lt msg).2.2.1⟩,
   ⟨(sha1Words msg).2.2.2.1, (sha1Words_lt msg).2.2.2.1⟩,
   ⟨(sha1Words msg).2.2.2.2, (sha1Words_lt msg).2.2.2.2⟩)

theorem sha1_congr_of_words {x y : List Nat}
    (h : sha1Words x = sha1Words y) : sha1 x = sha1 y := by
  unfold sha1
  rw [h]

/-- Counterexample to the sensitivity half of claim C8: changing a
single field does not always change the checksum.  SHA-1 maps
infinitely many field values into `2 ^ 160` possible states, so by the
pigeonhole principle two distinct values of the `rs` field (all other
like-endpoint fields fixed) produce the same checksum string. -/
theorem checksum_collision_counterexample :
    ∃ rs1 rs2 : List Nat, rs1 ≠ rs2 ∧
      likeChk 1 1 true 1 rs1 1 [117] [117] =
        likeChk 1 1 true 1 rs2 1 [117] [117] := by
  obtain ⟨a, b, hab, hF⟩ :=
    Finite.exists_ne_map_eq_of_infinite fun n : ℕ =>
      sha1Fin (likeChkInput 1 1 true 1 (List.replicate n 97) 1 [117] [117])
  refine ⟨List.replicate a 97, List.replicate b 97, ?_, ?_⟩
  · intro h
    apply hab
    simpa using congrArg List.length h
  · have h1 : (sha1Words (likeChkInput 1 1 true 1 (List.replicate a 97) 1
        [117] [117])).1 = (sha1Words (likeChkInput 1 1 true 1
        (List.replicate b 97) 1 [117] [117])).1 :=
      congrArg (fun t => t.1.1) hF
    have h2 := congrArg
      (fun t : Fin 4294967296 × Fin 4294967296 × Fin 4294967296 ×
          Fin 4294967296 × Fin 4294967296 => t.2.1.1) hF
    have h3 := congrArg
      (fun t : Fin 4294967296 × Fin 4294967296 × Fin 4294967296 ×
          Fin 4294967296 × Fin 4294967296 => t.2.2.1.1) hF
    have h4 := congrArg
      (fun t : Fin 4294967296 × Fin 4294967296 × Fin 4294967296 ×
          Fin 4294967296 × Fin 4294967296 => t.2.2.2.1.1) hF
    have h5 := congrArg
      (fun t : Fin 4294967296 × Fin 4294967296 × Fin 4294967296 ×
          Fin 4294967296 × Fin 4294967296 => t.2.2.2.2.1) hF
    have hw : sha1Words (likeChkInput 1 1 true 1 (List.replicate a 97) 1
        [117] [117]) = sha1Words (likeChkInput 1 1 true 1
        (List.replicate b 97) 1 [117] [117]) :=
      Prod.ext h1 (Prod.ext h2 (Prod.ext h3 (Prod.ext h4 h5)))
    unfold likeChk
    rw [sha1_congr_of_words hw]

set_option maxRecDepth 40000 in
/-- Claim C8 (amended): both request checksums have the claimed shape
`encrypt(sha1(fields.join('') + salt), key)` with their endpoint's
field order, salt and key; equal fields, salt and key give an equal
checksum; changing a single field, or the salt, always changes the
string being hashed (and, at sample concrete field values, the checksum
itself, as does swapping in the other endpoint's salt or key) — but a
change of checksum output is not guaranteed universally, since SHA-1
collisions exist (see the counterexample). -/
theorem checksum_scheme_amended :
    (∀ special id shouldLike ty rs accountID udidArg uuidArg,
      likeChk special id shouldLike ty rs accountID udidArg uuidArg =
        chkFormula [intToStr special, intToStr id,
          intToStr (if shouldLike then 1 else 0), intToStr ty, rs,
          intToStr accountID, udidArg, uuidArg] likeSalt likeKey) ∧
    (∀ userName comment levelID percent,
      commentChk userName comment levelID percent =
        chkFormula [userName, comment, intToStr levelID,
          intToStr percent, [48]] commentSalt commentKey) ∧
    (∀ f s k f' s' k', f = f' → s = s' → k = k' →
      chkFormula f s k = chkFormula f' s' k') ∧
    (∀ (pre suf : List (List Nat)) (x y salt : List Nat), x ≠ y →
      (pre ++ x :: suf).foldr (· ++ ·) [] ++ salt ≠
        (pre ++ y :: suf).foldr (· ++ ·) [] ++ salt) ∧
    (∀ (fields : List (List Nat)) (s1 s2 : List Nat), s1 ≠ s2 →
      fields.foldr (· ++ ·) [] ++ s1 ≠ fields.foldr (· ++ ·) [] ++ s2) ∧
    likeChk 1 2 true 1 [97] 3 [117] [117] ≠
      likeChk 1 2 true 1 [98] 3 [117] [117] ∧
    chkFormula [[97]] likeSalt likeKey ≠
      chkFormula [[97]] commentSalt likeKey ∧
    chkFormula [[97]] likeSalt likeKey ≠
      chkFormula [[97]] likeSalt commentKey := by
  refine ⟨?_, ?_, ?_, ?_, ?_, by decide, by decide, by decide⟩
  · intro special id shouldLike ty rs accountID udidArg uuidArg
    simp [likeChk, likeChkInput, chkFormula, List.append_assoc]
  · intro userName comment levelID percent
    simp [commentChk, commentChkInput, chkFormula, List.append_assoc]
  · intro f s k f' s' k' hf hs hk
    rw [hf, hs, hk]
  · intro pre suf x y salt hxy heq
    apply hxy
    rw [List.foldr_append, List.foldr_append] at heq
    rw [foldr_append_init (List.foldr (· ++ ·) [] (x :: suf)) pre,
      foldr_append_init (List.foldr (· ++ ·) [] (y :: suf)) pre] at heq
    rw [List.append_assoc, List.append_assoc] at heq
    have h1 := List.append_cancel_left heq
    simp only [List.foldr_cons] at h1
    rw [List.append_assoc, List.append_assoc] at h1
    exact List.append_cancel_right h1
  · intro fields s1 s2 hne heq
    exact hne (List.append_cancel_left heq)

/-- Witness for the amended claim C8: the determinism and
input-sensitivity conjuncts applied at concrete values. -/
theorem checksum_scheme_amended_witness :
    chkFormula [[97]] likeSalt likeKey = chkFormula [[97]] likeSalt
      likeKey ∧
    [97] ++ [] ++ likeSalt ≠ [98] ++ [] ++ likeSalt := by
  constructor
  · exact checksum_scheme_amended.2.2.1 [[97]] likeSalt likeKey [[97]]
      likeSalt likeKey rfl rfl rfl
  · exact checksum_scheme_amended.2.2.2.1 [] [] [97] [98] likeSalt
      (by decide)

end GD
